import Mathlib

/-!
Verification of the Materials-Science-Paper-Harvester repository.

The definitions below are a shallow embedding of the two pipelines:
`src/materials_papers_harvester.py` (harvest, enrich, score, dedup) and
`src/download_verified_pdfs.py` (verified PDF download).  Strings are
modelled over ASCII characters (the Python code is byte/unicode faithful
only up to the ASCII fragment actually exercised by the data involved),
bytes as natural numbers, floating point scores as rationals, and the
network as explicit oracles passed to the functions that perform I/O.
-/

set_option maxHeartbeats 1200000
set_option maxRecDepth 8000

/-! ### Python string semantics helpers -/

/-- Python `str.strip()` (whitespace at both ends removed). -/
def pyStrip (s : String) : String :=
  ⟨((s.data.dropWhile Char.isWhitespace).reverse.dropWhile Char.isWhitespace).reverse⟩

/-- Python `str.lower()` (ASCII model). -/
def pyLower (s : String) : String := ⟨s.data.map Char.toLower⟩

/-- Python `needle in hay` substring test. -/
def substrB (needle hay : String) : Bool := decide (List.IsInfix needle.data hay.data)

/-- Python `str.split()` with no argument: split on whitespace runs,
no empty pieces. -/
def pySplit (s : String) : List String :=
  ((s.data.splitOnP Char.isWhitespace).filter (fun p => ¬ p.isEmpty)).map List.asString

/-- Python truthiness of an optional string (`None` and `""` are falsy). -/
def optTruthy : Option String → Bool
  | none => false
  | some s => s ≠ ""

/-! ### Canonical record model (`Record` dataclass, harvester lines 156-181) -/

/-- The `Record` dataclass of `materials_papers_harvester.py`. -/
structure Record where
  title : String := ""
  abstract : String := ""
  year : Option Int := none
  doi : Option String := none
  url : Option String := none
  pdf_url : Option String := none
  venue : Option String := none
  authors : List String := []
  source : Option String := none
  score : ℚ := 0
  deriving DecidableEq, Repr

/-! ### Year parsing (`safe_year`, harvester lines 144-151)

`safe_year` searches for the regex `(19|20)\d{2}` and returns the integer
value of the leftmost match; `None` for a missing or empty string or when
there is no match. -/

/-- Numeric value of an ASCII digit character. -/
def dval (c : Char) : Nat := c.toNat - 48

/-- Does the regex `(19|20)\d{2}` match at the head of the character list?
If so, return the value of the four matched digits. -/
def yearMatchAt : List Char → Option Nat
  | a :: b :: c :: d :: _ =>
    if ((a = '1' ∧ b = '9') ∨ (a = '2' ∧ b = '0')) ∧ c.isDigit ∧ d.isDigit then
      some (1000 * dval a + 100 * dval b + 10 * dval c + dval d)
    else none
  | _ => none

/-- Model of `re.search` for `(19|20)\d{2}`: leftmost match wins. -/
def yearScan : List Char → Option Nat
  | [] => none
  | c :: cs =>
    match yearMatchAt (c :: cs) with
    | some v => some v
    | none => yearScan cs

/-- Translation of `safe_year` from the harvester: `None` for an absent or empty string,
else the value of the leftmost `(19|20)\d{2}` match. -/
def safe_year : Option String → Option Nat
  | none => none
  | some s => if s = "" then none else yearScan s.data

/-- Spec-side reading for C9: does a 4-digit substring with value in
`[1900, 2099]` start at the head of the list?  (Follows the sentence
"the first 4-digit year token in the range [1900, 2099] appearing in
the string".) -/
def specYearMatchAt : List Char → Option Nat
  | a :: b :: c :: d :: _ =>
    let v := 1000 * dval a + 100 * dval b + 10 * dval c + dval d
    if a.isDigit ∧ b.isDigit ∧ c.isDigit ∧ d.isDigit ∧ 1900 ≤ v ∧ v ≤ 2099 then
      some v
    else none
  | _ => none

/-- Spec-side leftmost scan for C9. -/
def specYearScan : List Char → Option Nat
  | [] => none
  | c :: cs =>
    match specYearMatchAt (c :: cs) with
    | some v => some v
    | none => specYearScan cs

/-- Spec-side year extraction: the first 4-digit substring whose value is
in `[1900, 2099]`, else none. -/
def specFirstYear (s : String) : Option Nat := specYearScan s.data

/-! ### Relevance scoring (`score_record`, harvester lines 186-203)

The two compiled regexes are modelled exactly:

* `MATERIALS_RE` is a case-insensitive alternation of literal keywords,
  where an optional group `X(s)?` matches somewhere iff the literal `X` does,
  so the search succeeds iff one of the expanded literals below occurs as a
  (case-insensitive) substring;
* `EXCLUDE_RE` is `\b(nursing|clinical|veterinary|pediat|oncolog|dermatolog|surgery)\b`,
  a word-bounded search (`\w` = ASCII alphanumeric or underscore in this
  model). -/

/-- The literals of `MATERIALS_KEYWORDS` with optional `(s)?` groups dropped
(for `re.search`, `X(s)?` matches iff `X` matches). -/
def materialsLits : List String :=
  ["material science", "materials science", "functional materials",
   "semiconductor",
   "battery", "cathode", "anode", "electrolyte", "solid-state", "intercalation",
   "perovskite", "spinel", "garnet", "oxide", "sulfide", "nitride", "carbide", "boride",
   "alloy", "steel", "superalloy", "hea", "high-entropy",
   "polymer", "composite",
   "thin film", "coating", "deposition", "ald", "cvd", "pvd", "sputter",
   "microstructure", "grain", "phase", "diffusion", "defect", "dislocation",
   "catalyst", "electrocatalysis", "photocatalysis"]

/-- Whether `MATERIALS_RE.search(s)` succeeds (case-insensitively). -/
def materialsMatch (s : String) : Bool :=
  materialsLits.any (fun l => substrB l (pyLower s))

/-- Is the character a regex word character (`\w`, ASCII model)? -/
def isWordChar (c : Char) : Bool := c.isAlphanum ∨ c = '_'

/-- Does `lit` occur at the head of `l`, with a word boundary on each side?
`prev` is the character just before the current position, if any. -/
def wordBoundedHere (lit : List Char) (prev : Option Char) (l : List Char) : Bool :=
  (match prev with | none => true | some p => ! isWordChar p) &&
  lit.isPrefixOf l &&
  (match l.drop lit.length with | [] => true | c :: _ => ! isWordChar c)

/-- Scan for a word-bounded occurrence of `lit` anywhere in `l`. -/
def wordBoundedSearch (lit : List Char) : Option Char → List Char → Bool
  | prev, [] => wordBoundedHere lit prev []
  | prev, c :: cs => wordBoundedHere lit prev (c :: cs) || wordBoundedSearch lit (some c) cs

/-- The word stems of `EXCLUDE_RE`. -/
def excludeLits : List String :=
  ["nursing", "clinical", "veterinary", "pediat", "oncolog", "dermatolog", "surgery"]

/-- Whether `EXCLUDE_RE.search(s)` succeeds (case-insensitively, word-bounded). -/
def excludeMatch (s : String) : Bool :=
  excludeLits.any (fun l => wordBoundedSearch l.data none (pyLower s).data)

/-- Maximal runs of characters satisfying `p` inside `l` (the matches of the
regex `[p]+`). -/
def runsBy (p : Char → Bool) : List Char → List (List Char)
  | [] => []
  | c :: cs =>
    if p c then
      match runsBy p cs, cs with
      | r :: rs, d :: _ => if p d then (c :: r) :: rs else [c] :: r :: rs
      | r :: rs, [] => (c :: r) :: rs
      | [], _ => [[c]]
    else runsBy p cs

/-- Is the character in the class `[a-z0-9\-]` of the harvester's token
regex? -/
def isTokChar (c : Char) : Bool := ('a' ≤ c ∧ c ≤ 'z') ∨ ('0' ≤ c ∧ c ≤ '9') ∨ c = '-'

/-- Is the character a lowercase ASCII alphanumeric?  (The spec sentence for
C5 reads "alphanumeric query token".) -/
def isAlnumChar (c : Char) : Bool := ('a' ≤ c ∧ c ≤ 'z') ∨ ('0' ≤ c ∧ c ≤ '9')

/-- Model of `re.findall(r"[a-z0-9\-]{3,}", q)`: maximal `[a-z0-9\-]` runs of length
at least 3. -/
def tokensHarvester (q : String) : List String :=
  ((runsBy isTokChar q.data).filter (fun r => 3 ≤ r.length)).map List.asString

/-- Spec-side tokens for C5 as frozen: maximal alphanumeric runs of length
at least 3 (no hyphen in the class). -/
def tokensAlnum (q : String) : List String :=
  ((runsBy isAlnumChar q.data).filter (fun r => 3 ≤ r.length)).map List.asString

/-- The token loop of `score_record`: `for token in set(...): if token in
hay: s += 1.0`.  Every iteration adds the exact float `1.0` starting from
`0.0`, so the accumulated value is the natural number of hits. -/
def tokenLoop (toks : List String) (hay : String) : Nat :=
  toks.foldl (fun s t => if substrB t hay then s + 1 else s) 0

/-- Translation of `score_record` from the harvester, translated clause by clause.  The
Python `set(...)` iteration is modelled by deduplicating the token list
(every hit contributes the same `+1.0`, so iteration order is
irrelevant). -/
def score_record (rec : Record) (query : String) : ℚ :=
  let q := pyLower query
  let hay := pyLower (rec.title ++ "\n" ++ rec.abstract)
  let s1 := (tokenLoop (tokensHarvester q).dedup hay : ℚ)
  let s2 := s1 + (if materialsMatch hay ∨ materialsMatch (rec.venue.getD "") then (5 : ℚ)/2 else 0)
  let s3 := s2 - (if excludeMatch hay then 3 else 0)
  let s4 := s3 + (if (pySplit q).dedup.any (fun t => substrB t (pyLower rec.title)) then 1 else 0)
  let s5 := s4 + (if optTruthy rec.pdf_url then 1 else 0)
  match rec.year with
  | some y => if y ≠ 0 then s5 + max 0 (min 2 ((y - 2000 : ℚ) / 12)) else s5
  | none => s5

/-- Count of distinct tokens (from a given tokenizer) occurring in
title+abstract: the claimed "+1.0 per distinct query token present" term. -/
def distinctTokenHits (tokenizer : String → List String) (rec : Record) (query : String) :
    Nat :=
  ((tokenizer (pyLower query)).dedup.filter
      (fun t => substrB t (pyLower (rec.title ++ "\n" ++ rec.abstract)))).length

/-- The five tokenizer-independent terms of the claimed score sum. -/
def specScoreRest (rec : Record) (query : String) : ℚ :=
  let q := pyLower query
  let hay := pyLower (rec.title ++ "\n" ++ rec.abstract)
  (if materialsMatch hay ∨ materialsMatch (rec.venue.getD "") then (5 : ℚ)/2 else 0)
    - (if excludeMatch hay then 3 else 0)
    + (if (pySplit q).any (fun t => substrB t (pyLower rec.title)) then 1 else 0)
    + (if optTruthy rec.pdf_url then 1 else 0)
    + (match rec.year with
       | some y => if y ≠ 0 then max 0 (min 2 ((y - 2000 : ℚ) / 12)) else 0
       | none => 0)

/-- The C5 spec-side score written as the claimed six-term sum, parametrised
by the tokenizer of its first term. -/
def specScoreWith (tokenizer : String → List String) (rec : Record) (query : String) : ℚ :=
  (distinctTokenHits tokenizer rec query : ℚ) + specScoreRest rec query

/-- The C5 claim's score, with its literal "alphanumeric" token class. -/
def specScoreAlnum : Record → String → ℚ := specScoreWith tokensAlnum

/-- The amended C5 score: the token class is that of the source regex,
lowercase alphanumerics plus hyphen. -/
def specScoreHyphen : Record → String → ℚ := specScoreWith tokensHarvester

/-! ### HTTP access layer (`_get_json` / `_get_text`, harvester lines 84-119)

A single attempt either fails at the connection level
(`requests.RequestException` with no response) or yields a response with a
status code and a body.  `_get_json`/`_get_text` raise `HttpError` on 429,
call `raise_for_status()` (which raises `requests.HTTPError`, a subclass of
`requests.RequestException`, on any status >= 400) and otherwise return the
body.  The `tenacity` decorator retries on
`(requests.RequestException, HttpError)` with `stop_after_attempt(5)` and
`reraise=True`; backoff timing is not modelled.  The body type is abstract
(parsed JSON for `_get_json`, text for `_get_text`). -/

/-- One network attempt as seen by `_get_json`/`_get_text`. -/
inductive Attempt (α : Type) where
  | connError
  | response (status : Nat) (body : α)

/-- The exceptions the access layer can raise. -/
inductive HErr where
  | requestException
  | httpError429
  | httpStatusError (code : Nat)
  deriving DecidableEq, Repr

/-- The body of `_get_json`/`_get_text` for a single attempt: raise
`HttpError` on 429, `raise_for_status()` (raises for status >= 400), else
return the body. -/
def attemptOnce {α : Type} : Attempt α → Except HErr α
  | .connError => .error .requestException
  | .response st b =>
    if st = 429 then .error .httpError429
    else if 400 ≤ st then .error (.httpStatusError st)
    else .ok b

/-- Model of `retry_if_exception_type((requests.RequestException, HttpError))`:
`requestException` and `httpStatusError` are both `requests.RequestException`
(`requests.HTTPError` subclasses it), `httpError429` is `HttpError`, so every
exception the body can raise is retryable. -/
def isRetryable : HErr → Bool
  | .requestException => true
  | .httpError429 => true
  | .httpStatusError _ => true

/-- The retry loop of the `tenacity` decorator: `k` further attempts remain
after the current one, `i` is the current attempt's index in the oracle `f`.
With `reraise=True` the last exception is re-raised. -/
def retryGo {α : Type} (f : Nat → Attempt α) : Nat → Nat → Except HErr α
  | 0, i => attemptOnce (f i)
  | k + 1, i =>
    match attemptOnce (f i) with
    | .ok v => .ok v
    | .error e => if isRetryable e then retryGo f k (i + 1) else .error e

/-- Translation of `_get_json` over an oracle of attempt outcomes (`stop_after_attempt(5)`). -/
def _get_json {α : Type} (f : Nat → Attempt α) : Except HErr α := retryGo f 4 0

/-- Translation of `_get_text`: the identical decorator and body shape over text bodies. -/
def _get_text {α : Type} (f : Nat → Attempt α) : Except HErr α := retryGo f 4 0

/-- Spec-side description of the retry policy's observable result: the first
success among the first five attempts, else the error of the fifth. -/
def retrySpec {α : Type} (f : Nat → Attempt α) : Except HErr α :=
  match (List.range 5).findSome? (fun i => (attemptOnce (f i)).toOption) with
  | some v => .ok v
  | none => attemptOnce (f 4)

/-! ### Enrichment pass 1 (`enrich_unpaywall`, harvester lines 740-762) -/

/-- One open-access location from an Unpaywall response (`url_for_pdf` and
`url` fields; `none` models a JSON null or absent key). -/
structure OALoc where
  url_for_pdf : Option String := none
  url : Option String := none
  deriving DecidableEq, Repr

/-- An Unpaywall response: `best_oa_location` (with `none` for an absent or
falsy value) and `oa_locations`. -/
structure UnpaywallData where
  best_oa_location : Option OALoc := none
  oa_locations : List OALoc := []
  deriving DecidableEq, Repr

/-- The candidate loop of `enrich_unpaywall`: thread the `pdf_url`/`url`
fields through the candidates, breaking as soon as `pdf_url` is truthy. -/
def upLoop : List OALoc → Option String → Option String → Option String × Option String
  | [], p, u => (p, u)
  | c :: cs, p, u =>
    let p' := if !optTruthy p && optTruthy c.url_for_pdf then c.url_for_pdf else p
    let u' := if !optTruthy u && optTruthy c.url then c.url else u
    if optTruthy p' then (p', u') else upLoop cs p' u'

/-- Translation of `enrich_unpaywall` restricted to one record: skip when `pdf_url` is
truthy or `doi` is falsy; on a fetch exception keep the record; otherwise
run the candidate loop over `[best] + oa_locations`. -/
def enrichUnpaywallRec (r : Record) (fetch : Except Unit UnpaywallData) : Record :=
  if optTruthy r.pdf_url ∨ ¬ optTruthy r.doi then r
  else
    match fetch with
    | .error _ => r
    | .ok data =>
      let cands := (match data.best_oa_location with
                    | some l => [l]
                    | none => []) ++ data.oa_locations
      let pu := upLoop cands r.pdf_url r.url
      { r with pdf_url := pu.1, url := pu.2 }

/-- Translation of `enrich_unpaywall` over a record list; the oracle maps a DOI to the
Unpaywall fetch outcome. -/
def enrich_unpaywall (oracle : String → Except Unit UnpaywallData) (recs : List Record) :
    List Record :=
  recs.map (fun r => enrichUnpaywallRec r (oracle (r.doi.getD "")))

/-! ### Enrichment pass 2 (`enrich_from_landing`, harvester lines 934-950)

`pick_pdf_from` performs network scraping; its outcome is an oracle mapping
the record's `(url or "", doi)` pair to the returned string (empty when
nothing was found). -/

/-- Translation of `enrich_from_landing` restricted to one record: only records with falsy
`pdf_url` and a truthy `url` or `doi` are candidates, and only `pdf_url` is
assigned (when the scrape yields a non-empty string). -/
def enrichLandingRec (pick : String → Option String → String) (r : Record) : Record :=
  if ¬ optTruthy r.pdf_url ∧ (optTruthy r.url ∨ optTruthy r.doi) then
    let pdf := pick (r.url.getD "") r.doi
    if pdf ≠ "" then { r with pdf_url := some pdf } else r
  else r

/-- Translation of `enrich_from_landing` over a record list. -/
def enrich_from_landing (pick : String → Option String → String) (recs : List Record) :
    List Record :=
  recs.map (enrichLandingRec pick)

/-! ### Deduplication stage 1: exact merge by DOI (harvester lines 955-968)

`by_doi` is a Python dict, i.e. an insertion-ordered association list with
unique keys; replacing the value of an existing key keeps its position. -/

/-- The replacement test of the exact-merge loop:
`(not cur.pdf_url and r.pdf_url) or (len(r.abstract) > len(cur.abstract))`. -/
def chooseRec (cur r : Record) : Record :=
  if (¬ optTruthy cur.pdf_url ∧ optTruthy r.pdf_url) ∨
      cur.abstract.length < r.abstract.length then r else cur

/-- Dict lookup on the association list. -/
def lookupA (l : List (String × Record)) (d : String) : Option Record :=
  (l.find? (fun e => e.1 = d)).map (fun e => e.2)

/-- Dict update of an existing key (keeps insertion order). -/
def updateA (l : List (String × Record)) (d : String) (v : Record) :
    List (String × Record) :=
  l.map (fun e => if e.1 = d then (d, v) else e)

/-- The exact-merge loop: `byDoi` is the dict, `out` collects records with a
falsy `doi`; the result is `list(by_doi.values()) + out`. -/
def exactMergeGo : List Record → List (String × Record) → List Record → List Record
  | [], byDoi, out => byDoi.map (fun e => e.2) ++ out
  | r :: rs, byDoi, out =>
    match r.doi with
    | some d =>
      if d = "" then exactMergeGo rs byDoi (out ++ [r])
      else
        match lookupA byDoi d with
        | none => exactMergeGo rs (byDoi ++ [(d, r)]) out
        | some cur => exactMergeGo rs (updateA byDoi d (chooseRec cur r)) out
    | none => exactMergeGo rs byDoi (out ++ [r])

/-- The exact-merge stage of `deduplicate`. -/
def exactMerge (recs : List Record) : List Record := exactMergeGo recs [] []

/-- The claimed survivor of a DOI group: the left fold of the group under the
replacement rule, starting from its first record. -/
def survivorFrom : Option Record → List Record → Option Record
  | cur, [] => cur
  | none, r :: g => survivorFrom (some r) g
  | some c, r :: g => survivorFrom (some (chooseRec c r)) g

/-! ### Deduplication stage 2: fuzzy title merge (harvester lines 979-998)

The similarity scorer is `rapidfuzz`'s `fuzz.QRatio`, external library code:
the fuzzy stage takes it as a parameter `sc` (the source passes it as the
`scorer=` argument of `extractOne` in the same way).  `random.sample` draws
fresh randomness on each call; the stage takes the drawn sample as a
function `sp` of the current key list (the population it samples from), so
a fixed `sp` models a run whose draws are replayed at equal states and two
different `sp` functions model two runs with independent randomness.
`rapidfuzz.fuzz.ratio` itself is modelled below (`ratioScore`) as
`100 * (1 - indel_distance / (len1 + len2))` for use at concrete inputs. -/

/-- Model of `re.sub(r"\W+", "", title.lower())`: the normalized title key. -/
def titleKey (r : Record) : String :=
  ⟨((pyLower r.title).data.filter isWordChar)⟩

/-- Model of `best[1]` of `extractOne(key, candidates, scorer)`: the best similarity
score over the candidate keys, as a fold (`extractOne` maximises the score;
the base `0` is only returned for an empty candidate list, which the caller
guards, and never exceeds the threshold 95). -/
def bestScore (sc : String → String → ℚ) (key : String) (cands : List String) : ℚ :=
  cands.foldl (fun m c => if m ≤ sc key c then sc key c else m) 0

/-- The candidate keys for one fuzzy-merge decision: the
12-character-prefix bucket, or the sampled keys when the bucket is empty
(`random.sample` returns distinct indices into `keys`). -/
def fuzzyCands (sp : List String → List Nat) (keys : List String) (key : String) :
    List String :=
  let bucket := keys.filter (fun k => k.take 12 = key.take 12)
  if bucket = [] then (sp keys).map (fun i => keys.getD i "") else bucket

/-- The fuzzy-merge loop over stage-1 output.  `keys` is the growing list of
accepted keys.  A new record with an empty key list is accepted outright;
otherwise its candidate set is the 12-character-prefix bucket, falling back
to the sampled keys when the bucket is empty, and the record is discarded
when the best candidate scores at least 95. -/
def fuzzyMergeGo (sc : String → String → ℚ) (sp : List String → List Nat) :
    List Record → List String → List Record
  | [], _ => []
  | r :: rs, keys =>
    let key := titleKey r
    if keys = [] then r :: fuzzyMergeGo sc sp rs [key]
    else
      let cands := fuzzyCands sp keys key
      if cands ≠ [] ∧ 95 ≤ bestScore sc key cands then fuzzyMergeGo sc sp rs keys
      else r :: fuzzyMergeGo sc sp rs (keys ++ [key])

/-- The fuzzy-merge stage of `deduplicate` (the `rapidfuzz`-present branch). -/
def fuzzyMerge (sc : String → String → ℚ) (sp : List String → List Nat)
    (recs : List Record) : List Record :=
  fuzzyMergeGo sc sp recs []

/-- Translation of `deduplicate` (with `rapidfuzz` available): exact merge, then fuzzy
merge. -/
def deduplicate (sc : String → String → ℚ) (sp : List String → List Nat)
    (recs : List Record) : List Record :=
  fuzzyMerge sc sp (exactMerge recs)

/-- Length of a longest common subsequence, row-by-row dynamic programming.
`prev` is the previous DP row (length `t.length + 1`). -/
def lcsRow (c : Char) : List Char → List Nat → Nat → List Nat
  | [], _, _ => []
  | d :: ds, p0 :: p1 :: ps, left =>
    let here := if c = d then p0 + 1 else max left p1
    here :: lcsRow c ds (p1 :: ps) here
  | _ :: _, _, _ => []

/-- LCS length of two character lists. -/
def llcs (s t : List Char) : Nat :=
  let init := List.replicate (t.length + 1) 0
  let final := s.foldl (fun row c => 0 :: lcsRow c t row 0) init
  final.getLastD 0

/-- Model of `rapidfuzz.fuzz.ratio` on preprocessed strings:
`100 * (1 - indel / (|s| + |t|))` where `indel = |s| + |t| - 2 * llcs`,
and `100` when both strings are empty. -/
def ratioScore (s t : String) : ℚ :=
  let total := s.length + t.length
  if total = 0 then 100
  else Rat.divInt (100 * (2 * llcs s.data t.data)) total

/-- First-run key list of the C4 counterexample: one long `y...y` key,
31 single-character keys (forcing the random-sample fallback once more
than 30 keys exist), and a 40-character key differing from the first in
its first character only (similarity 97.5). -/
def fillChars : List Char :=
  ['a', 'b', 'c', 'd', 'e', 'f', 'g', 'h', 'i', 'j', 'k', 'l', 'm', 'n', 'o', 'p',
   'q', 'r', 's', 't', 'u', 'v', 'w', 'x', '0', '1', '2', '3', '4', '5', '6']

/-- A 40-character title `yyyy...y`. -/
def yTitle : String := ⟨List.replicate 40 'y'⟩

/-- The near-duplicate title `zyyy...y` (40 characters). -/
def zTitle : String := ⟨'z' :: List.replicate 39 'y'⟩

/-- The C4 counterexample input: 33 records with pairwise 12-prefix-distinct
title keys. -/
def c4Recs : List Record :=
  { title := yTitle } :: (fillChars.map (fun c => { title := ⟨[c]⟩ })) ++ [{ title := zTitle }]

/-- The first run's random draws: `random.sample(range(len(keys)), min(30,
len(keys)))` returns every index while the population is at most 30; at 31
keys it omits index 0; at 32 keys it omits indices 0 and 1 — in particular
the draw for the last record misses the similar key at index 0. -/
def c4Sample1 (keys : List String) : List Nat :=
  if keys.length ≤ 30 then List.range keys.length
  else if keys.length = 31 then (List.range 31).drop 1
  else (List.range 32).drop 2

/-- The second run's independent draws: identical until the population
reaches 32 keys, where the draw now contains index 0 (the `y...y` key). -/
def c4Sample2 (keys : List String) : List Nat :=
  if keys.length ≤ 30 then List.range keys.length
  else if keys.length = 31 then (List.range 31).drop 1
  else List.range 30


/-! ### Verified download engine (`download_verified_pdfs.py`)

Bytes are naturals, a file system is an association list from paths to
contents with unique keys, and the per-row effects are recorded as an event
trace (request issued, file written, file removed).  The optional deep
`pypdf` validation is a parameter (`none` = library not installed).  The
filename derivation `guess_filename` (Content-Disposition parsing, URL
path segment, sanitisation) is abstracted as the parameter `fnameOf`; its
string munging is orthogonal to the claims below, which hold for every
derived name. -/

/-- The `PLACEHOLDERS` set of `download_verified_pdfs.py`. -/
def PLACEHOLDERS : List String := ["", "-", "n/a", "na", "null", "none", "nan"]

/-- Translation of `present(v)`: the stripped value is non-empty and its lower-casing is
not a placeholder. -/
def present (v : String) : Bool :=
  let s := pyStrip v
  s ≠ "" && ! (PLACEHOLDERS.contains (pyLower s))

/-- The bytes of the PDF magic header `%PDF`. -/
def pdfMagic : List Nat := [37, 80, 68, 70]

/-- The bytes of the PDF trailer marker. -/
def eofMark : List Nat := [37, 37, 69, 79, 70]

/-- Translation of `first_kb_has_pdf_magic`: `%PDF` occurs in the first 1024 bytes. -/
def first_kb_has_pdf_magic (b : List Nat) : Bool :=
  if b = [] then false else decide (List.IsInfix pdfMagic (b.take 1024))

/-- Translation of `ends_with_eof` on a file's content: files shorter than 10 bytes fail,
else `%%EOF` must occur in the last `min 4096 size` bytes. -/
def ends_with_eof (content : List Nat) : Bool :=
  let size := content.length
  if size < 10 then false
  else decide (List.IsInfix eofMark (content.drop (size - min 4096 size)))

/-- Translation of `verify_pdf_file` on a file's content (reads are exact in the model):
magic in the first 4KB read (checked over its first 1KB), then the trailing
`%%EOF`, then the optional deep parse. -/
def verify_pdf_file (pypdf : Option (List Nat → Bool)) (content : List Nat) :
    Bool × String :=
  if ¬ first_kb_has_pdf_magic (content.take 4096) then (false, "no_pdf_header")
  else if ¬ ends_with_eof content then (false, "missing_eof")
  else
    match pypdf with
    | some parse => if parse content then (true, "ok") else (false, "pypdf_parse_error:Exception")
    | none => (true, "ok")

/-- Decimal digit character. -/
def decChar : Nat → Char
  | 0 => '0' | 1 => '1' | 2 => '2' | 3 => '3' | 4 => '4'
  | 5 => '5' | 6 => '6' | 7 => '7' | 8 => '8' | _ => '9'

/-- Decimal digits, fuelled structural recursion (any `fuel > n` is enough). -/
def natDigitsGo : Nat → Nat → List Char
  | _, 0 => []
  | n, fuel + 1 =>
    if n < 10 then [decChar n]
    else natDigitsGo (n / 10) fuel ++ [decChar (n % 10)]

/-- Decimal digits of a natural number (most significant first). -/
def natDigits (n : Nat) : List Char := natDigitsGo n (n + 1)

/-- The decimal numeral of `n`, as Python's `f"{n}"` produces it. -/
def natStr (n : Nat) : String := ⟨natDigits n⟩

/-- Model of `os.path.splitext` on a bare filename: split at the last dot, except
that leading dots never start an extension. -/
def splitext (name : String) : String × String :=
  let l := name.data
  let lead := (l.takeWhile (fun c => c = '.')).length
  let rest := l.drop lead
  match (rest.reverse.findIdx? (fun c => c = '.')).map (fun i => rest.length - 1 - i) with
  | none => (name, "")
  | some i => (⟨l.take (lead + i)⟩, ⟨l.drop (lead + i)⟩)

/-- The collision-numbered candidate paths of `ensure_unique`. -/
def uniqueCand (outdir base ext : String) (i : Nat) : String :=
  outdir ++ "/" ++ base ++ "-" ++ natStr i ++ ext

/-- The `while os.path.exists` loop of `ensure_unique`, with enough fuel to
scan one more candidate than there are existing paths. -/
def ensureUniqueGo (paths : List String) (outdir base ext : String) :
    Nat → Nat → String
  | 0, i => uniqueCand outdir base ext i
  | fuel + 1, i =>
    if uniqueCand outdir base ext i ∈ paths then
      ensureUniqueGo paths outdir base ext fuel (i + 1)
    else uniqueCand outdir base ext i

/-- Translation of `ensure_unique(outdir, filename)` over the list of existing paths. -/
def ensure_unique (paths : List String) (outdir filename : String) : String :=
  let be := splitext filename
  let path0 := outdir ++ "/" ++ filename
  if path0 ∈ paths then ensureUniqueGo paths outdir be.1 be.2 (paths.length + 1) 1
  else path0

/-- A download input row (absent CSV cells are empty strings). -/
structure Row where
  pdf_url : String := ""
  page_url : String := ""
  title : String := ""
  doi : String := ""
  deriving DecidableEq, Repr

/-- An HTTP response for the download engine: final status, headers, final
URL and the streamed body chunks. -/
structure DlResponse where
  status : Nat := 200
  contentType : String := ""
  contentDisposition : String := ""
  finalUrl : String := ""
  chunks : List (List Nat) := []
  deriving DecidableEq, Repr

/-- The file system: association list from paths to contents, unique keys. -/
abbrev FSys := List (String × List Nat)

/-- Does a path exist? -/
def fsExists (fs : FSys) (p : String) : Bool := fs.any (fun e => e.1 = p)

/-- Content of a path (empty for a missing path). -/
def fsRead (fs : FSys) (p : String) : List Nat :=
  ((fs.find? (fun e => e.1 = p)).map (fun e => e.2)).getD []

/-- Write (create or overwrite) a path. -/
def fsWrite (fs : FSys) (p : String) (c : List Nat) : FSys :=
  if fsExists fs p then fs.map (fun e => if e.1 = p then (p, c) else e)
  else fs ++ [(p, c)]

/-- Model of `os.remove`. -/
def fsRemove (fs : FSys) (p : String) : FSys := fs.filter (fun e => ¬ e.1 = p)

/-- The observable per-row effects. -/
inductive DlEvent where
  | request (url : String)
  | write (path : String)
  | remove (path : String)
  deriving DecidableEq, Repr

/-- The `(ok, path_or_url, reason)` result of `download_one`. -/
structure DlResult where
  ok : Bool
  pathOrUrl : String
  reason : String
  deriving DecidableEq, Repr

/-- The peeked first chunk: the first non-empty chunk of the stream (`b""`
when every chunk is empty). -/
def dlFirstChunk (r : DlResponse) : List Nat :=
  ((r.chunks.filter (fun c => c ≠ [])).head?).getD []

/-- The written bytes: the peeked first non-empty chunk followed by the
remaining non-empty chunks, i.e. all non-empty chunks in order. -/
def dlContent (r : DlResponse) : List Nat :=
  (r.chunks.filter (fun c => c ≠ [])).flatten

/-- The write-verify-or-delete tail of `download_one` at a decided path. -/
def dlWriteAt (pypdf : Option (List Nat → Bool)) (url : String) (content : List Nat)
    (fs : FSys) (p : String) : DlResult × FSys × List DlEvent :=
  let fs' := fsWrite fs p content
  let vr := verify_pdf_file pypdf content
  if vr.1 then (⟨true, p, "ok"⟩, fs', [.request url, .write p])
  else (⟨false, url, "verify_fail:" ++ vr.2⟩, fsRemove fs' p, [.request url, .write p, .remove p])

/-- Translation of `download_one`, `download_verified_pdfs.py` lines 152-232.  `resp` is
the outcome of `session.get` (`.error name` = a raised
`requests.RequestException` of that class name). -/
def download_one (pypdf : Option (List Nat → Bool))
    (fnameOf : Row → String → DlResponse → String) (row : Row) (outdir : String)
    (skipExisting : Bool) (resp : Except String DlResponse) (fs : FSys) :
    DlResult × FSys × List DlEvent :=
  let url := pyStrip row.pdf_url
  if ¬ present url then (⟨false, url, "empty_pdf_url"⟩, fs, [])
  else
    match resp with
    | .error e => (⟨false, url, "http_error:" ++ e⟩, fs, [.request url])
    | .ok r =>
      if ¬ (200 ≤ r.status ∧ r.status < 400) then
        (⟨false, url, "http_status:" ++ natStr r.status⟩, fs, [.request url])
      else
        let first := dlFirstChunk r
        let ctype := pyLower r.contentType
        if ¬ (substrB "application/pdf" ctype ∨ first_kb_has_pdf_magic first) then
          (⟨false, url, "not_pdf_response"⟩, fs, [.request url])
        else
          let finalUrl := if r.finalUrl = "" then url else r.finalUrl
          let fname := fnameOf row finalUrl r
          let path0 := outdir ++ "/" ++ fname
          if skipExisting ∧ fsExists fs path0 then
            if (verify_pdf_file pypdf (fsRead fs path0)).1 then
              (⟨true, path0, "exists_ok"⟩, fs, [.request url])
            else
              dlWriteAt pypdf url (dlContent r) fs
                (ensure_unique (fs.map (fun e => e.1)) outdir fname)
          else dlWriteAt pypdf url (dlContent r) fs path0

/-- One failure-log row (`fail_fields`). -/
structure FailEntry where
  title : String
  pdf_url : String
  page_url : String
  reason : String
  deriving DecidableEq, Repr

/-- One iteration of the main download loop (`main`, lines 271-308): rows
whose `pdf_url` is not `present` are logged as `empty_pdf_url` failures
without calling `download_one`; otherwise the row's outcome is logged on
failure. -/
def mainRow (pypdf : Option (List Nat → Bool))
    (fnameOf : Row → String → DlResponse → String) (row : Row) (outdir : String)
    (skipExisting : Bool) (resp : Except String DlResponse) (fs : FSys) :
    Option FailEntry × FSys × List DlEvent :=
  let pdf_url := pyStrip row.pdf_url
  if ¬ present pdf_url then
    (some ⟨row.title, pdf_url, row.page_url, "empty_pdf_url"⟩, fs, [])
  else
    let out := download_one pypdf fnameOf row outdir skipExisting resp fs
    (if out.1.ok then none else some ⟨row.title, pdf_url, row.page_url, out.1.reason⟩,
     out.2.1, out.2.2)

/-! ## Theorems -/

section CharFacts

lemma isDigit_toNat {a : Char} : a.isDigit = true ↔ 48 ≤ a.toNat ∧ a.toNat ≤ 57 := by
  constructor
  · intro h
    simp [Char.isDigit, Char.le_def] at h
    exact ⟨h.1, h.2⟩
  · intro h
    simp [Char.isDigit, Char.le_def]
    exact ⟨h.1, h.2⟩

lemma char_eq_of_toNat {a b : Char} (h : a.toNat = b.toNat) : a = b := by
  apply Char.ext
  apply UInt32.ext
  simpa [Char.toNat] using h

end CharFacts

lemma yearMatchAt_eq (l : List Char) : yearMatchAt l = specYearMatchAt l := by
  match l with
  | [] => rfl
  | [a] => rfl
  | [a, b] => rfl
  | [a, b, c] => rfl
  | a :: b :: c :: d :: rest =>
    show yearMatchAt (a :: b :: c :: d :: rest) = specYearMatchAt (a :: b :: c :: d :: rest)
    simp only [yearMatchAt, specYearMatchAt]
    apply if_congr _ rfl rfl
    constructor
    · rintro ⟨hab, hc, hd⟩
      have hc' := isDigit_toNat.mp hc
      have hd' := isDigit_toNat.mp hd
      have hcb : dval c ≤ 9 := by simp only [dval]; omega
      have hdb : dval d ≤ 9 := by simp only [dval]; omega
      rcases hab with ⟨ha, hb⟩ | ⟨ha, hb⟩ <;> subst ha <;> subst hb <;>
        refine ⟨by decide, by decide, hc, hd, ?_, ?_⟩ <;>
        simp only [show dval '1' = 1 from by decide, show dval '9' = 9 from by decide,
          show dval '2' = 2 from by decide, show dval '0' = 0 from by decide] <;>
        omega
    · rintro ⟨ha, hb, hc, hd, h1, h2⟩
      have ha' := isDigit_toNat.mp ha
      have hb' := isDigit_toNat.mp hb
      have hc' := isDigit_toNat.mp hc
      have hd' := isDigit_toNat.mp hd
      refine ⟨?_, hc, hd⟩
      simp only [dval] at h1 h2
      have h19 : (a.toNat = 49 ∧ b.toNat = 57) ∨ (a.toNat = 50 ∧ b.toNat = 48) := by omega
      rcases h19 with ⟨ha2, hb2⟩ | ⟨ha2, hb2⟩
      · exact Or.inl ⟨char_eq_of_toNat (by rw [ha2]; decide),
          char_eq_of_toNat (by rw [hb2]; decide)⟩
      · exact Or.inr ⟨char_eq_of_toNat (by rw [ha2]; decide),
          char_eq_of_toNat (by rw [hb2]; decide)⟩

lemma yearScan_eq (l : List Char) : yearScan l = specYearScan l := by
  induction l with
  | nil => rfl
  | cons c cs ih =>
    simp only [yearScan, specYearScan, yearMatchAt_eq]
    cases specYearMatchAt (c :: cs) with
    | none => simpa using ih
    | some v => rfl

/-- Claim C9 (confirmed): `safe_year` returns exactly the first 4-digit
substring of the input whose value lies in `[1900, 2099]` (reading the
claim's "token" as "substring", the regex `(19|20)\d{2}` semantics), and
no year for an absent or empty string or when no such substring occurs. -/
theorem C9_safe_year_first_plausible (os : Option String) :
    safe_year os = os.bind (fun s => specFirstYear s) := by
  cases os with
  | none => rfl
  | some s =>
    simp only [safe_year, Option.bind, specFirstYear]
    by_cases h : s = ""
    · subst h; rfl
    · simp only [h, if_false]
      exact yearScan_eq s.data

/-! ### C2: the retry policy -/

lemma isRetryable_true (e : HErr) : isRetryable e = true := by cases e <;> rfl

lemma retryGo_eq_spec {α : Type} (f : Nat → Attempt α) : retryGo f 4 0 = retrySpec f := by
  have hr : List.range 5 = [0, 1, 2, 3, 4] := rfl
  simp only [retrySpec, hr, List.findSome?_cons]
  cases h0 : attemptOnce (f 0) with
  | ok v => simp [retryGo, h0, Except.toOption]
  | error e0 =>
    cases h1 : attemptOnce (f 1) with
    | ok v => simp [retryGo, h0, h1, isRetryable_true, Except.toOption]
    | error e1 =>
      cases h2 : attemptOnce (f 2) with
      | ok v => simp [retryGo, h0, h1, h2, isRetryable_true, Except.toOption]
      | error e2 =>
        cases h3 : attemptOnce (f 3) with
        | ok v => simp [retryGo, h0, h1, h2, h3, isRetryable_true, Except.toOption]
        | error e3 =>
          cases h4 : attemptOnce (f 4) with
          | ok v => simp [retryGo, h0, h1, h2, h3, h4, isRetryable_true, Except.toOption]
          | error e4 =>
            simp [retryGo, h0, h1, h2, h3, h4, isRetryable_true, Except.toOption,
              List.findSome?]

/-- Claim C2 (corrected): every exception the request body can raise —
connection-level failures, HTTP 429 (raised as `HttpError`) and every other
non-2xx status (raised by `raise_for_status()` as `requests.HTTPError`, a
subclass of `requests.RequestException`) — matches the tenacity retry
predicate, so `_get_json`/`_get_text` return the first success among the
first five attempts and otherwise re-raise the fifth attempt's exception;
no failure kind is surfaced on the first attempt. -/
theorem C2_retry_surfaces_after_five {α : Type} (f g : Nat → Attempt α) :
    _get_json f = retrySpec f ∧ _get_text g = retrySpec g :=
  ⟨retryGo_eq_spec f, retryGo_eq_spec g⟩

/-- The attempt oracle refuting C2 as stated: attempt 0 returns HTTP 404
(neither a connection failure nor 429), attempt 1 succeeds. -/
def c2Oracle : Nat → Attempt Nat :=
  fun n => if n = 0 then .response 404 7 else .response 200 42

/-- Claim C2 counterexample: under the oracle whose first attempt is an
HTTP 404 response, `_get_json` does not surface the 404 to the caller on
the first attempt — it retries and returns the second attempt's body, so a
non-2xx, non-429 status is silently retried. -/
theorem C2_counterexample :
    c2Oracle 0 = .response 404 7 ∧
    _get_json c2Oracle = .ok 42 ∧
    _get_json c2Oracle ≠ .error (.httpStatusError 404) := by
  refine ⟨rfl, rfl, fun h => ?_⟩
  have h2 : (Except.ok 42 : Except HErr Nat) = .error (.httpStatusError 404) :=
    (show _get_json c2Oracle = .ok 42 from rfl) ▸ h
  exact Except.noConfusion h2

/-! ### C10: placeholder `pdf_url` rows -/

lemma pyStrip_data (s : String) :
    (pyStrip s).data =
      List.rdropWhile Char.isWhitespace (s.data.dropWhile Char.isWhitespace) := rfl

lemma pyStrip_idem (s : String) : pyStrip (pyStrip s) = pyStrip s := by
  apply String.ext
  rw [pyStrip_data, pyStrip_data]
  set p := Char.isWhitespace
  set R := List.rdropWhile p (s.data.dropWhile p) with hR
  have hdrop : R.dropWhile p = R := by
    rw [List.dropWhile_eq_self_iff]
    intro hl
    have hpre : R <+: (s.data.dropWhile p) := by
      rw [hR]; exact List.rdropWhile_prefix p _
    have h0 : 0 < R.length := by simpa using hl
    have hget := hpre.getElem h0
    have hlen : 0 < (s.data.dropWhile p).length := lt_of_lt_of_le h0 hpre.length_le
    have hnot := List.dropWhile_get_zero_not p s.data hlen
    simp only [List.get_eq_getElem] at hnot ⊢
    rw [hget]
    exact hnot
  rw [hdrop, List.rdropWhile_idempotent]

/-- Claim C10 (confirmed): a download row whose `pdf_url`, stripped and
lower-cased, is empty or a placeholder is logged as a failure with reason
`empty_pdf_url`, with no HTTP request issued, no event at all, and the file
system untouched. -/
theorem C10_placeholder_rows (pypdf : Option (List Nat → Bool))
    (fnameOf : Row → String → DlResponse → String) (row : Row) (outdir : String)
    (skipExisting : Bool) (resp : Except String DlResponse) (fs : FSys)
    (h : pyLower (pyStrip row.pdf_url) ∈ PLACEHOLDERS) :
    mainRow pypdf fnameOf row outdir skipExisting resp fs =
      (some ⟨row.title, pyStrip row.pdf_url, row.page_url, "empty_pdf_url"⟩, fs, []) := by
  have hc : PLACEHOLDERS.contains (pyLower (pyStrip (pyStrip row.pdf_url))) = true := by
    rw [pyStrip_idem]
    exact List.elem_eq_true_of_mem h
  have hp : present (pyStrip row.pdf_url) = false := by
    simp only [present, hc, Bool.not_true, Bool.and_false]
  simp [mainRow, hp]

/-- Witness for C10 at the row `" N/A "`. -/
theorem C10_witness :
    mainRow none (fun _ _ _ => "f.pdf")
        { pdf_url := " N/A ", page_url := "p", title := "t" } "pdfs" false
        (.error "ConnectionError") [] =
      (some ⟨"t", "N/A", "p", "empty_pdf_url"⟩, [], []) := by
  have h := C10_placeholder_rows none (fun _ _ _ => "f.pdf")
    { pdf_url := " N/A ", page_url := "p", title := "t" } "pdfs" false
    (.error "ConnectionError") [] (by decide)
  exact h.trans (by decide)

/-! ### C3: enrichment only writes `pdf_url` (and, refuting the claim,
`url`) -/

lemma upLoop_url_stable (cs : List OALoc) (p u : Option String)
    (hu : optTruthy u = true) : (upLoop cs p u).2 = u := by
  induction cs generalizing p with
  | nil => rfl
  | cons c cs ih =>
    simp only [upLoop, hu, Bool.not_true, Bool.false_and, Bool.false_eq_true, if_false]
    split <;> split <;> first | rfl | exact ih _

/-- Claim C3 (corrected): both enrichment passes keep `title`, `abstract`,
`year`, `doi`, `venue`, `authors`, `source` and `score` unchanged, and the
landing-page pass also keeps `url` unchanged; but `enrich_unpaywall` may
additionally fill `url` — both `pdf_url` and `url` are write-once-if-empty
(a truthy value is never overwritten). -/
theorem C3_enrichment_frame (r : Record) (fetch : Except Unit UnpaywallData)
    (pick : String → Option String → String) :
    ((enrichUnpaywallRec r fetch).title = r.title ∧
     (enrichUnpaywallRec r fetch).abstract = r.abstract ∧
     (enrichUnpaywallRec r fetch).year = r.year ∧
     (enrichUnpaywallRec r fetch).doi = r.doi ∧
     (enrichUnpaywallRec r fetch).venue = r.venue ∧
     (enrichUnpaywallRec r fetch).authors = r.authors ∧
     (enrichUnpaywallRec r fetch).source = r.source ∧
     (enrichUnpaywallRec r fetch).score = r.score) ∧
    ((enrichLandingRec pick r).title = r.title ∧
     (enrichLandingRec pick r).abstract = r.abstract ∧
     (enrichLandingRec pick r).year = r.year ∧
     (enrichLandingRec pick r).doi = r.doi ∧
     (enrichLandingRec pick r).url = r.url ∧
     (enrichLandingRec pick r).venue = r.venue ∧
     (enrichLandingRec pick r).authors = r.authors ∧
     (enrichLandingRec pick r).source = r.source ∧
     (enrichLandingRec pick r).score = r.score) ∧
    (optTruthy r.url = true → (enrichUnpaywallRec r fetch).url = r.url) ∧
    (optTruthy r.pdf_url = true →
      (enrichUnpaywallRec r fetch).pdf_url = r.pdf_url ∧
      (enrichLandingRec pick r).pdf_url = r.pdf_url) := by
  refine ⟨?_, ?_, ?_, ?_⟩
  · unfold enrichUnpaywallRec
    split
    · exact ⟨rfl, rfl, rfl, rfl, rfl, rfl, rfl, rfl⟩
    · cases fetch <;> exact ⟨rfl, rfl, rfl, rfl, rfl, rfl, rfl, rfl⟩
  · simp only [enrichLandingRec]
    split
    · split <;> exact ⟨rfl, rfl, rfl, rfl, rfl, rfl, rfl, rfl, rfl⟩
    · exact ⟨rfl, rfl, rfl, rfl, rfl, rfl, rfl, rfl, rfl⟩
  · intro hu
    unfold enrichUnpaywallRec
    split
    · rfl
    · cases fetch with
      | error _ => rfl
      | ok data => exact upLoop_url_stable _ _ _ hu
  · intro hp
    constructor
    · unfold enrichUnpaywallRec
      simp [hp]
    · unfold enrichLandingRec
      simp [hp]

/-- The record and Unpaywall data refuting C3 as stated: the record has a
DOI, no `pdf_url` and no `url`; Unpaywall's best location carries a landing
`url` but no PDF. -/
def c3Rec : Record := { doi := some "10.1/x" }

/-- The Unpaywall response used in the C3 counterexample. -/
def c3Data : UnpaywallData := { best_oa_location := some { url := some "http://landing" } }

/-- Claim C3 counterexample: `enrich_unpaywall` modifies the `url` field of
a record (from `none` to the landing URL), so enrichment does not leave all
fields other than `pdf_url` and `score` unchanged. -/
theorem C3_counterexample :
    c3Rec.url = none ∧
    (enrichUnpaywallRec c3Rec (.ok c3Data)).url = some "http://landing" ∧
    (enrich_unpaywall (fun _ => .ok c3Data) [c3Rec]).map (fun r => r.url) =
      [some "http://landing"] := by
  refine ⟨rfl, by decide, by decide⟩

/-! ### `ensure_unique` never returns an existing path -/

/-- Decimal parsing, the inverse of `natDigits`. -/
def parseDec (l : List Char) : Nat := l.foldl (fun a c => 10 * a + dval c) 0

lemma parseDec_append_digit (l : List Char) (c : Char) :
    parseDec (l ++ [c]) = 10 * parseDec l + dval c := by
  simp [parseDec, List.foldl_append]

lemma dval_decChar (m : Nat) (h : m < 10) : dval (decChar m) = m := by
  interval_cases m <;> decide

lemma parseDec_natDigitsGo : ∀ fuel n, n < fuel → parseDec (natDigitsGo n fuel) = n := by
  intro fuel
  induction fuel with
  | zero => intro n h; omega
  | succ fuel ih =>
    intro n h
    simp only [natDigitsGo]
    by_cases h10 : n < 10
    · simp only [h10, if_true]
      simp [parseDec, dval_decChar n h10]
    · simp only [h10, if_false]
      rw [parseDec_append_digit, ih (n / 10) (by omega), dval_decChar (n % 10) (by omega)]
      omega

lemma natStr_inj {a b : Nat} (h : natStr a = natStr b) : a = b := by
  have hd : natDigits a = natDigits b := congrArg String.data h
  have ha := parseDec_natDigitsGo (a + 1) a (by omega)
  have hb := parseDec_natDigitsGo (b + 1) b (by omega)
  unfold natDigits at hd
  rw [hd] at ha
  omega

lemma uniqueCand_inj (o b e : String) : Function.Injective (uniqueCand o b e) := by
  intro i j h
  unfold uniqueCand at h
  have hd := congrArg String.data h
  simp only [String.data_append] at hd
  have h1 := List.append_cancel_right hd
  have h2 := List.append_cancel_left h1
  exact natStr_inj (String.ext h2)

lemma exists_unused_cand (paths : List String) (o b e : String) (i : Nat) :
    ∃ j, i ≤ j ∧ j < i + paths.length + 1 ∧ uniqueCand o b e j ∉ paths := by
  by_contra hcon
  push_neg at hcon
  have hsub : (Finset.Ico i (i + paths.length + 1)).image (uniqueCand o b e) ⊆
      paths.toFinset := by
    intro x hx
    simp only [Finset.mem_image, Finset.mem_Ico] at hx
    obtain ⟨j, ⟨hj1, hj2⟩, rfl⟩ := hx
    exact List.mem_toFinset.mpr (hcon j hj1 hj2)
  have hcard := Finset.card_le_card hsub
  rw [Finset.card_image_of_injective _ (uniqueCand_inj o b e), Nat.card_Ico] at hcard
  have hlen := paths.toFinset_card_le
  omega

lemma ensureUniqueGo_not_mem (paths : List String) (o b e : String) :
    ∀ fuel i, (∃ j, i ≤ j ∧ j < i + fuel ∧ uniqueCand o b e j ∉ paths) →
      ensureUniqueGo paths o b e fuel i ∉ paths := by
  intro fuel
  induction fuel with
  | zero =>
    rintro i ⟨j, h1, h2, _⟩
    omega
  | succ fuel ih =>
    rintro i ⟨j, h1, h2, hj⟩
    simp only [ensureUniqueGo]
    by_cases hc : uniqueCand o b e i ∈ paths
    · simp only [hc, if_true]
      have hne : j ≠ i := fun he => hj (he ▸ hc)
      exact ih (i + 1) ⟨j, by omega, by omega, hj⟩
    · simp [hc]

lemma ensure_unique_not_mem (paths : List String) (outdir filename : String) :
    ensure_unique paths outdir filename ∉ paths := by
  unfold ensure_unique
  by_cases h0 : outdir ++ "/" ++ filename ∈ paths
  · simp only [h0, if_true]
    apply ensureUniqueGo_not_mem
    obtain ⟨j, h1, h2, hj⟩ :=
      exists_unused_cand paths outdir (splitext filename).1 (splitext filename).2 1
    exact ⟨j, h1, by omega, hj⟩
  · simp [h0]

lemma fsExists_false_of_not_mem (fs : FSys) (p : String)
    (h : p ∉ fs.map (fun e => e.1)) : fsExists fs p = false := by
  rw [Bool.eq_false_iff]
  intro hx
  simp only [fsExists, List.any_eq_true, decide_eq_true_eq] at hx
  obtain ⟨e, he, rfl⟩ := hx
  exact h (List.mem_map.mpr ⟨e, he, rfl⟩)

lemma fsExists_remove (fs : FSys) (p : String) : fsExists (fsRemove fs p) p = false := by
  rw [Bool.eq_false_iff]
  intro hx
  simp only [fsExists, fsRemove, List.any_eq_true, List.mem_filter,
    decide_eq_true_eq] at hx
  obtain ⟨e, ⟨_, he2⟩, he3⟩ := hx
  rw [he3] at he2
  simp at he2

/-! ### C6, C7, C8: the download path -/

lemma verify_eof_fail (pypdf : Option (List Nat → Bool)) (content : List Nat)
    (heof : ends_with_eof content = false) :
    (verify_pdf_file pypdf content).1 = false ∧
    (first_kb_has_pdf_magic (content.take 4096) = true →
      (verify_pdf_file pypdf content).2 = "missing_eof") := by
  unfold verify_pdf_file
  by_cases hm : first_kb_has_pdf_magic (content.take 4096) = true
  · simp [hm, heof]
  · simp [hm]

lemma mem_write_dlWriteAt {pypdf : Option (List Nat → Bool)} {url : String}
    {content : List Nat} {fs : FSys} {q p : String}
    (h : DlEvent.write p ∈ (dlWriteAt pypdf url content fs q).2.2) : p = q := by
  simp only [dlWriteAt] at h
  split at h <;> simp_all

/-- Claim C6 (corrected, amended): with `skip-existing` set, every path the
engine writes to did not exist beforehand — in particular, when the
same-named existing file fails verification the engine writes to the
collision-free path chosen by `ensure_unique`.  (Without `skip-existing`
the engine overwrites a same-named existing file, see the
counterexample.) -/
theorem C6_skip_existing_never_overwrites (pypdf : Option (List Nat → Bool))
    (fnameOf : Row → String → DlResponse → String) (row : Row) (outdir : String)
    (resp : Except String DlResponse) (fs : FSys) :
    ∀ p, DlEvent.write p ∈ (download_one pypdf fnameOf row outdir true resp fs).2.2 →
      fsExists fs p = false := by
  intro p hp
  cases resp with
  | error e =>
    simp only [download_one] at hp
    split at hp <;> simp at hp
  | ok r =>
    simp only [download_one] at hp
    repeat' split at hp
    all_goals first
      | simp at hp
      | (rw [mem_write_dlWriteAt hp]
         exact fsExists_false_of_not_mem fs _ (ensure_unique_not_mem _ outdir _))
      | (rw [mem_write_dlWriteAt hp]
         rename_i hcond
         rw [Bool.eq_false_iff]
         exact fun hx => hcond ⟨trivial, hx⟩)

lemma dlWriteAt_eof_char (pypdf : Option (List Nat → Bool)) (url : String)
    (content : List Nat) (fs : FSys) (q : String)
    (heof : ends_with_eof content = false) :
    dlWriteAt pypdf url content fs q =
      (⟨false, url, "verify_fail:" ++ (verify_pdf_file pypdf content).2⟩,
       fsRemove (fsWrite fs q content) q,
       [.request url, .write q, .remove q]) := by
  have h1 := (verify_eof_fail pypdf content heof).1
  simp [dlWriteAt, h1]

/-- Claim C7 (corrected, amended): a response whose status is in `[200, 400)`
but which carries neither an `application/pdf` content type nor the PDF
magic in the first kilobyte of its first chunk is rejected with reason
`not_pdf_response`; in every case with such content indicators absent —
including failing statuses, which get reason `http_status:...` instead —
nothing is ever written and the file system is unchanged. -/
theorem C7_nonpdf_rejected_before_write (pypdf : Option (List Nat → Bool))
    (fnameOf : Row → String → DlResponse → String) (row : Row) (outdir : String)
    (skipExisting : Bool) (r : DlResponse) (fs : FSys)
    (hnp : ¬ (substrB "application/pdf" (pyLower r.contentType) = true ∨
              first_kb_has_pdf_magic (dlFirstChunk r) = true))
    (res : DlResult) (fs' : FSys) (evs : List DlEvent)
    (heq : download_one pypdf fnameOf row outdir skipExisting (.ok r) fs = (res, fs', evs)) :
    fs' = fs ∧ (∀ p, DlEvent.write p ∉ evs) ∧ res.ok = false ∧
    (present (pyStrip row.pdf_url) = true → 200 ≤ r.status → r.status < 400 →
      res.reason = "not_pdf_response") := by
  simp only [download_one] at heq
  repeat' split at heq
  · injection heq with h1 h2
    injection h2 with h2 h3
    subst h1 h2 h3
    rename_i hpres
    exact ⟨rfl, by simp, rfl, fun hc => absurd hc hpres⟩
  · injection heq with h1 h2
    injection h2 with h2 h3
    subst h1 h2 h3
    rename_i hst
    exact ⟨rfl, by simp, rfl, fun _ h1 h2 => (hst ⟨h1, h2⟩).elim⟩
  · injection heq with h1 h2
    injection h2 with h2 h3
    subst h1 h2 h3
    exact ⟨rfl, by simp, rfl, fun _ _ _ => rfl⟩

/-- The response refuting C7 as stated: a plain HTML 404.  `download_one`
rejects it before any write, but with reason `http_status:404`, not
`not_pdf_response`. -/
def c7Resp : DlResponse :=
  { status := 404, contentType := "text/html",
    chunks := [[60, 104, 116, 109, 108, 62]] }

/-- The row used by the download counterexamples. -/
def c7Row : Row := { pdf_url := "http://x/a", title := "t" }

/-- Claim C7 counterexample: the 404 HTML response carries neither the
`application/pdf` content type nor PDF magic, yet the row's failure reason
is `http_status:404`, not the claimed `not_pdf_response`. -/
theorem C7_counterexample :
    substrB "application/pdf" (pyLower c7Resp.contentType) = false ∧
    first_kb_has_pdf_magic (dlFirstChunk c7Resp) = false ∧
    (download_one none (fun _ _ _ => "a.pdf") c7Row "pdfs" false (.ok c7Resp) []).1.reason =
      "http_status:404" ∧
    (download_one none (fun _ _ _ => "a.pdf") c7Row "pdfs" false (.ok c7Resp) []).1.reason ≠
      "not_pdf_response" := by
  decide

/-- Claim C8 (corrected, amended): whenever `download_one` writes a file
whose content lacks `%%EOF` in its final 4KB, the file is removed again and
is absent from the resulting file system, the row fails, and the reason is
`verify_fail:missing_eof` exactly when the content does start with the PDF
magic in its first kilobyte (otherwise the header check fails first and the
reason is `verify_fail:no_pdf_header`). -/
theorem C8_missing_eof_file_removed (pypdf : Option (List Nat → Bool))
    (fnameOf : Row → String → DlResponse → String) (row : Row) (outdir : String)
    (skipExisting : Bool) (r : DlResponse) (fs : FSys)
    (heof : ends_with_eof (dlContent r) = false)
    (res : DlResult) (fs' : FSys) (evs : List DlEvent)
    (heq : download_one pypdf fnameOf row outdir skipExisting (.ok r) fs = (res, fs', evs)) :
    ∀ p, DlEvent.write p ∈ evs →
      DlEvent.remove p ∈ evs ∧ fsExists fs' p = false ∧ res.ok = false ∧
      (first_kb_has_pdf_magic ((dlContent r).take 4096) = true →
        res.reason = "verify_fail:missing_eof") := by
  intro p hp
  simp only [download_one, dlWriteAt] at heq
  repeat' split at heq
  all_goals
    first
    | (rename_i hvr
       exact (Bool.false_ne_true
         ((verify_eof_fail pypdf (dlContent r) heof).1.symm.trans hvr)).elim)
    | (injection heq with h1 h2
       injection h2 with h2 h3
       subst h1 h2 h3
       first
       | (simp at hp
          done)
       | (simp only [List.mem_cons, List.mem_singleton] at hp
          rcases hp with h | h | h
          · exact absurd h (by simp)
          · injection h with hpq
            subst hpq
            refine ⟨by simp, fsExists_remove _ _, rfl, fun hmag => ?_⟩
            have hv := (verify_eof_fail pypdf _ heof).2 hmag
            show "verify_fail:" ++ (verify_pdf_file pypdf (dlContent r)).2 =
              "verify_fail:missing_eof"
            rw [hv]
            decide
          · exact absurd h (by simp))
      )

/-- The response refuting C8 as stated: the server claims `application/pdf`
but sends HTML with no `%%EOF` and no PDF magic; the ten bytes are
`<htmlxxxx>`. -/
def c8Resp : DlResponse :=
  { status := 200, contentType := "application/pdf",
    chunks := [[60, 104, 116, 109, 108, 120, 120, 120, 120, 62]] }

/-- Claim C8 counterexample: the downloaded file lacks `%%EOF` in its last
4KB, and it is indeed written, removed and reported as a failure — but with
reason `verify_fail:no_pdf_header`, not the claimed
`verify_fail:missing_eof`, because the header check precedes the trailer
check. -/
theorem C8_counterexample :
    ends_with_eof (dlContent c8Resp) = false ∧
    download_one none (fun _ _ _ => "a.pdf") c7Row "pdfs" false (.ok c8Resp) [] =
      (⟨false, "http://x/a", "verify_fail:no_pdf_header"⟩, [],
       [.request "http://x/a", .write "pdfs/a.pdf", .remove "pdfs/a.pdf"]) ∧
    "verify_fail:no_pdf_header" ≠ "verify_fail:missing_eof" := by
  decide

/-- Witness for C7: a 200 HTML response is rejected as `not_pdf_response`
with the file system untouched and nothing written. -/
theorem C7_witness :
    (fun out : DlResult × FSys × List DlEvent =>
      out.2.1 = [("pdfs/z.pdf", [9])] ∧ out.1.ok = false ∧
      DlEvent.write "pdfs/a.pdf" ∉ out.2.2 ∧ out.1.reason = "not_pdf_response")
      (download_one none (fun _ _ _ => "a.pdf") c7Row "pdfs" false
        (.ok { status := 200, contentType := "text/html", chunks := [[1, 2, 3]] })
        [("pdfs/z.pdf", [9])]) := by
  have h := C7_nonpdf_rejected_before_write none (fun _ _ _ => "a.pdf") c7Row "pdfs" false
    { status := 200, contentType := "text/html", chunks := [[1, 2, 3]] }
    [("pdfs/z.pdf", [9])] (by decide) _ _ _ rfl
  exact ⟨h.1, h.2.2.1, h.2.1 "pdfs/a.pdf", h.2.2.2 (by decide) (by decide) (by decide)⟩

/-- Witness for C8: a valid-magic PDF body with no `%%EOF` is written, then
removed, and reported as `verify_fail:missing_eof`. -/
theorem C8_witness :
    (fun out : DlResult × FSys × List DlEvent =>
      DlEvent.remove "pdfs/a.pdf" ∈ out.2.2 ∧ fsExists out.2.1 "pdfs/a.pdf" = false ∧
      out.1.ok = false ∧ out.1.reason = "verify_fail:missing_eof")
      (download_one none (fun _ _ _ => "a.pdf") c7Row "pdfs" false
        (.ok { status := 200, contentType := "application/pdf",
               chunks := [[37, 80, 68, 70, 1, 1, 1, 1, 1, 1]] }) []) := by
  have h := C8_missing_eof_file_removed none (fun _ _ _ => "a.pdf") c7Row "pdfs" false
    { status := 200, contentType := "application/pdf",
      chunks := [[37, 80, 68, 70, 1, 1, 1, 1, 1, 1]] } [] (by decide) _ _ _ rfl
    "pdfs/a.pdf" (by decide)
  exact ⟨h.1, h.2.1, h.2.2.1, h.2.2.2 (by decide)⟩

/-- The pre-existing file system of the C6 counterexample. -/
def c6Fs : FSys := [("pdfs/a.pdf", [37, 80, 68, 70])]

/-- A well-formed PDF body (magic, padding, `%%EOF`). -/
def c6Body : List Nat := [37, 80, 68, 70] ++ [1, 1, 1, 1, 1, 1] ++ eofMark

/-- Claim C6 counterexample: with `skip-existing` not set, `download_one`
writes straight to the derived filename even though a file of that name
already exists — the engine overwrites it rather than choosing a
collision-safe unique path. -/
theorem C6_counterexample :
    fsExists c6Fs "pdfs/a.pdf" = true ∧
    DlEvent.write "pdfs/a.pdf" ∈
      (download_one none (fun _ _ _ => "a.pdf") c7Row "pdfs" false
        (.ok { status := 200, contentType := "application/pdf",
               chunks := [c6Body] }) c6Fs).2.2 ∧
    fsRead ((download_one none (fun _ _ _ => "a.pdf") c7Row "pdfs" false
        (.ok { status := 200, contentType := "application/pdf",
               chunks := [c6Body] }) c6Fs).2.1) "pdfs/a.pdf" = c6Body := by
  decide

/-- Witness for C6: with `skip-existing` set and the existing same-named
file failing verification, the write goes to the fresh path `pdfs/a-1.pdf`,
which did not exist before. -/
theorem C6_witness :
    DlEvent.write "pdfs/a-1.pdf" ∈
      (download_one none (fun _ _ _ => "a.pdf") c7Row "pdfs" true
        (.ok { status := 200, contentType := "application/pdf",
               chunks := [c6Body] }) c6Fs).2.2 ∧
    fsExists c6Fs "pdfs/a-1.pdf" = false := by
  refine ⟨by decide, ?_⟩
  exact C6_skip_existing_never_overwrites none (fun _ _ _ => "a.pdf") c7Row "pdfs"
    (.ok { status := 200, contentType := "application/pdf", chunks := [c6Body] }) c6Fs
    "pdfs/a-1.pdf" (by decide)

/-! ### C1: the exact-merge stage -/

lemma lookupA_cons (e : String × Record) (es : List (String × Record)) (d : String) :
    lookupA (e :: es) d = if e.1 = d then some e.2 else lookupA es d := by
  by_cases h : e.1 = d
  · simp [lookupA, List.find?_cons_of_pos, h]
  · simp [lookupA, List.find?_cons_of_neg, h]

lemma lookupA_none_iff (byDoi : List (String × Record)) (d : String) :
    lookupA byDoi d = none ↔ d ∉ byDoi.map Prod.fst := by
  rw [lookupA, Option.map_eq_none', List.find?_eq_none]
  simp only [List.mem_map, decide_eq_true_eq]
  constructor
  · rintro h ⟨e, he, rfl⟩
    exact h e he rfl
  · intro h e he hde
    exact h ⟨e, he, hde⟩

lemma lookupA_mem_of_some {byDoi : List (String × Record)} {d : String} {cur : Record}
    (h : lookupA byDoi d = some cur) : ∃ e ∈ byDoi, e.1 = d ∧ e.2 = cur := by
  rw [lookupA, Option.map_eq_some'] at h
  obtain ⟨e, hfind, he2⟩ := h
  have h1 := List.mem_of_find?_eq_some hfind
  have h2 := List.find?_some hfind
  simp only [decide_eq_true_eq] at h2
  exact ⟨e, h1, h2, he2⟩

lemma lookupA_append_single (byDoi : List (String × Record)) (d0 : String) (r : Record)
    (d : String) :
    lookupA (byDoi ++ [(d0, r)]) d =
      match lookupA byDoi d with
      | some v => some v
      | none => if d0 = d then some r else none := by
  induction byDoi with
  | nil => simp [lookupA_cons, lookupA]
  | cons e es ih =>
    rw [List.cons_append, lookupA_cons, lookupA_cons]
    by_cases h : e.1 = d <;> simp [h, ih]

lemma updateA_cons (e : String × Record) (es : List (String × Record)) (d0 : String)
    (v : Record) :
    updateA (e :: es) d0 v = (if e.1 = d0 then (d0, v) else e) :: updateA es d0 v := rfl

lemma updateA_fst (byDoi : List (String × Record)) (d0 : String) (v : Record) :
    (updateA byDoi d0 v).map Prod.fst = byDoi.map Prod.fst := by
  induction byDoi with
  | nil => rfl
  | cons e es ih =>
    rw [updateA_cons, List.map_cons, List.map_cons, ih]
    by_cases h : e.1 = d0
    · rw [if_pos h]
      simp [h]
    · rw [if_neg h]

lemma lookupA_updateA_self (byDoi : List (String × Record)) (d0 : String) (v : Record) :
    lookupA (updateA byDoi d0 v) d0 = (lookupA byDoi d0).map (fun _ => v) := by
  induction byDoi with
  | nil => rfl
  | cons e es ih =>
    rw [updateA_cons]
    by_cases h : e.1 = d0
    · rw [if_pos h, lookupA_cons, lookupA_cons]
      simp [h]
    · rw [if_neg h, lookupA_cons, lookupA_cons, if_neg h, if_neg h]
      exact ih

lemma lookupA_updateA_ne (byDoi : List (String × Record)) (d0 : String) (v : Record)
    (d : String) (h : d0 ≠ d) :
    lookupA (updateA byDoi d0 v) d = lookupA byDoi d := by
  induction byDoi with
  | nil => rfl
  | cons e es ih =>
    rw [updateA_cons]
    by_cases he : e.1 = d0
    · rw [if_pos he, lookupA_cons, lookupA_cons]
      rw [if_neg (show ¬ ((d0, v).1 = d) from h), if_neg (by rw [he]; exact h)]
      exact ih
    · rw [if_neg he, lookupA_cons, lookupA_cons]
      by_cases hd2 : e.1 = d
      · rw [if_pos hd2, if_pos hd2]
      · rw [if_neg hd2, if_neg hd2]
        exact ih

lemma chooseRec_doi {cur r : Record} {d : String} (h1 : cur.doi = some d)
    (h2 : r.doi = some d) : (chooseRec cur r).doi = some d := by
  unfold chooseRec
  split <;> assumption

lemma values_filter_nil (d : String) (es : List (String × Record))
    (h : ∀ e ∈ es, e.2.doi = some e.1 ∧ e.1 ≠ d) :
    (es.map (fun e => e.2)).filter (fun r => decide (r.doi = some d)) = [] := by
  induction es with
  | nil => rfl
  | cons e es ih =>
    obtain ⟨h1, h2⟩ := h e (by simp)
    simp only [List.map_cons, List.filter_cons]
    rw [if_neg (by simp [h1, h2])]
    exact ih (fun e' he' => h e' (by simp [he']))

lemma byDoi_values_filter (d : String) (byDoi : List (String × Record))
    (hinv : ∀ e ∈ byDoi, e.2.doi = some e.1)
    (hnd : (byDoi.map Prod.fst).Nodup) :
    (byDoi.map (fun e => e.2)).filter (fun r => decide (r.doi = some d)) =
      (lookupA byDoi d).toList := by
  induction byDoi with
  | nil => rfl
  | cons e es ih =>
    have he2 : e.2.doi = some e.1 := hinv e (by simp)
    simp only [List.map_cons, List.filter_cons, lookupA_cons]
    by_cases hed : e.1 = d
    · subst hed
      rw [if_pos (by simp [he2]), if_pos rfl]
      have hnotin : e.1 ∉ es.map Prod.fst := by
        simp only [List.map_cons, List.nodup_cons] at hnd
        exact hnd.1
      rw [values_filter_nil e.1 es (fun e' he' =>
        ⟨hinv e' (by simp [he']), fun hc => hnotin (hc ▸ List.mem_map.mpr ⟨e', he', rfl⟩)⟩)]
      rfl
    · rw [if_neg (by simp [he2, hed]), if_neg hed]
      refine ih (fun e' he' => hinv e' (by simp [he'])) ?_
      simp only [List.map_cons, List.nodup_cons] at hnd
      exact hnd.2

lemma survivorFrom_some (g : List Record) : ∀ c, survivorFrom (some c) g =
    some (g.foldl chooseRec c) := by
  induction g with
  | nil => intro c; rfl
  | cons r rs ih =>
    intro c
    rw [survivorFrom, List.foldl_cons]
    exact ih _

lemma exactMergeGo_filter (d : String) (hd : d ≠ "") :
    ∀ (rs : List Record) (byDoi : List (String × Record)) (out : List Record),
      (∀ e ∈ byDoi, e.2.doi = some e.1 ∧ e.1 ≠ "") →
      (byDoi.map Prod.fst).Nodup →
      (∀ r ∈ out, r.doi = none ∨ r.doi = some "") →
      (exactMergeGo rs byDoi out).filter (fun r => decide (r.doi = some d)) =
        (survivorFrom (lookupA byDoi d)
          (rs.filter (fun r => decide (r.doi = some d)))).toList := by
  intro rs
  induction rs with
  | nil =>
    intro byDoi out hinv hnd hout
    rw [exactMergeGo, List.filter_append,
      byDoi_values_filter d byDoi (fun e he => (hinv e he).1) hnd]
    have hofilter : out.filter (fun r => decide (r.doi = some d)) = [] := by
      rw [List.filter_eq_nil_iff]
      intro r hr
      rcases hout r hr with h | h
      · simp [h]
      · rw [h]
        simp only [decide_eq_true_eq, Option.some.injEq]
        exact fun hc => hd hc.symm
    rw [hofilter, List.append_nil, List.filter_nil]
    cases lookupA byDoi d <;> rfl
  | cons r rs ih =>
    intro byDoi out hinv hnd hout
    rw [List.filter_cons]
    cases hdoi : r.doi with
    | none =>
      rw [show exactMergeGo (r :: rs) byDoi out = exactMergeGo rs byDoi (out ++ [r]) by
        simp only [exactMergeGo, hdoi]]
      rw [if_neg (by simp)]
      exact ih byDoi (out ++ [r]) hinv hnd (by
        intro x hx
        rcases List.mem_append.mp hx with h | h
        · exact hout x h
        · simp only [List.mem_singleton] at h
          subst h
          exact Or.inl hdoi)
    | some d0 =>
      have hpred : d0 ≠ d → ¬ (decide ((some d0 : Option String) = some d) = true) := by
        intro hne
        simp only [decide_eq_true_eq, Option.some.injEq]
        exact hne
      by_cases h0 : d0 = ""
      · subst h0
        rw [show exactMergeGo (r :: rs) byDoi out = exactMergeGo rs byDoi (out ++ [r]) by
          simp only [exactMergeGo, hdoi]; simp]
        rw [if_neg (hpred (fun hc => hd hc.symm))]
        exact ih byDoi (out ++ [r]) hinv hnd (by
          intro x hx
          rcases List.mem_append.mp hx with h | h
          · exact hout x h
          · simp only [List.mem_singleton] at h
            subst h
            exact Or.inr hdoi)
      · cases hcur : lookupA byDoi d0 with
        | none =>
          rw [show exactMergeGo (r :: rs) byDoi out =
              exactMergeGo rs (byDoi ++ [(d0, r)]) out by
            simp only [exactMergeGo, hdoi]
            rw [if_neg h0, hcur]]
          have hinv' : ∀ e ∈ byDoi ++ [(d0, r)], e.2.doi = some e.1 ∧ e.1 ≠ "" := by
            intro e he
            rcases List.mem_append.mp he with h | h
            · exact hinv e h
            · simp only [List.mem_singleton] at h
              subst h
              exact ⟨hdoi, h0⟩
          have hnd' : ((byDoi ++ [(d0, r)]).map Prod.fst).Nodup := by
            rw [List.map_append]
            simp only [List.map_cons, List.map_nil]
            rw [List.nodup_append]
            refine ⟨hnd, List.nodup_singleton d0, ?_⟩
            intro a ha hb
            simp only [List.mem_singleton] at hb
            subst hb
            exact (lookupA_none_iff byDoi a).mp hcur ha
          rw [ih (byDoi ++ [(d0, r)]) out hinv' hnd' hout, lookupA_append_single]
          by_cases hdd : d0 = d
          · subst hdd
            rw [if_pos (by simp), hcur]
            simp [survivorFrom]
          · rw [if_neg (hpred hdd)]
            cases lookupA byDoi d <;> simp [hdd]
        | some cur =>
          obtain ⟨e, hemem, he1, he2⟩ := lookupA_mem_of_some hcur
          have hcurdoi : cur.doi = some d0 := by
            rw [← he2, (hinv e hemem).1, he1]
          rw [show exactMergeGo (r :: rs) byDoi out =
              exactMergeGo rs (updateA byDoi d0 (chooseRec cur r)) out by
            simp only [exactMergeGo, hdoi]
            rw [if_neg h0, hcur]]
          have hinv' : ∀ e' ∈ updateA byDoi d0 (chooseRec cur r),
              e'.2.doi = some e'.1 ∧ e'.1 ≠ "" := by
            intro e' he'
            simp only [updateA, List.mem_map] at he'
            obtain ⟨a, ha, rfl⟩ := he'
            by_cases hak : a.1 = d0
            · rw [if_pos hak]
              exact ⟨chooseRec_doi hcurdoi hdoi, h0⟩
            · rw [if_neg hak]
              exact hinv a ha
          have hnd' : ((updateA byDoi d0 (chooseRec cur r)).map Prod.fst).Nodup := by
            rw [updateA_fst]
            exact hnd
          rw [ih (updateA byDoi d0 (chooseRec cur r)) out hinv' hnd' hout]
          by_cases hdd : d0 = d
          · subst hdd
            rw [if_pos (by simp), lookupA_updateA_self, hcur]
            rfl
          · rw [if_neg (hpred hdd), lookupA_updateA_ne byDoi d0 _ d hdd]

/-- Claim C1 (corrected, amended): for every non-empty DOI value `d`,
exactly one record with that DOI survives the exact-merge stage, namely the
left fold of the group (in input order) under the replacement rule "take
the new record iff (the current one has no `pdf_url` and the new one has)
or the new abstract is strictly longer".  Because the rule is a disjunction
rather than a lexicographic preference, a record without `pdf_url` but with
a strictly longer abstract displaces one with a `pdf_url` — so the claimed
`pdf_url` preference does not always hold (see the counterexample). -/
theorem C1_exact_merge_unique_survivor (recs : List Record) (d : String) (hd : d ≠ "")
    (r : Record) (g : List Record)
    (hg : recs.filter (fun x => decide (x.doi = some d)) = r :: g) :
    (exactMerge recs).filter (fun x => decide (x.doi = some d)) =
      [g.foldl chooseRec r] := by
  have h := exactMergeGo_filter d hd recs [] [] (by simp) (by simp) (by simp)
  rw [exactMerge, h, hg]
  show (survivorFrom (some r) g).toList = _
  rw [survivorFrom_some]
  rfl

/-- The DOI group refuting C1 as stated: `c1A` has a `pdf_url` and an empty
abstract, `c1B` has no `pdf_url` and a longer abstract. -/
def c1A : Record := { title := "t", doi := some "10.1/x", pdf_url := some "http://pdf" }

/-- The second record of the C1 counterexample group. -/
def c1B : Record := { title := "t", doi := some "10.1/x", abstract := "long abstract" }

/-- Claim C1 counterexample: both records carry DOI `10.1/x` and `c1A` has a
non-empty `pdf_url`, yet the unique exact-merge survivor of the group is
`c1B`, whose `pdf_url` is empty — the longer abstract overrides the
`pdf_url` preference instead of merely breaking ties. -/
theorem C1_counterexample :
    c1A.doi = some "10.1/x" ∧ c1B.doi = some "10.1/x" ∧
    optTruthy c1A.pdf_url = true ∧ optTruthy c1B.pdf_url = false ∧
    (exactMerge [c1A, c1B]).map (fun x => x.pdf_url) = [none] := by
  refine ⟨rfl, rfl, rfl, rfl, ?_⟩
  decide

/-- Witness for C1 at the two-record group with DOI `10.1/x`. -/
theorem C1_witness :
    (exactMerge [c1A, c1B]).filter (fun x => decide (x.doi = some "10.1/x")) =
      [[c1B].foldl chooseRec c1A] :=
  C1_exact_merge_unique_survivor [c1A, c1B] "10.1/x" (by decide) c1A [c1B] (by decide)

/-! ### C5: the scoring formula -/

lemma foldl_hits (hay : String) (toks : List String) : ∀ a : Nat,
    toks.foldl (fun s t => if substrB t hay then s + 1 else s) a =
      a + (toks.filter (fun t => substrB t hay)).length := by
  induction toks with
  | nil => intro a; simp
  | cons t ts ih =>
    intro a
    rw [List.foldl_cons, List.filter_cons]
    by_cases h : substrB t hay = true
    · rw [if_pos h, if_pos h, ih]
      simp only [List.length_cons]
      omega
    · rw [if_neg h, if_neg h, ih]

lemma tokenLoop_count (toks : List String) (hay : String) :
    tokenLoop toks hay = (toks.filter (fun t => substrB t hay)).length := by
  rw [tokenLoop, foldl_hits]
  exact Nat.zero_add _

lemma any_dedup (l : List String) (p : String → Bool) : l.dedup.any p = l.any p := by
  rw [Bool.eq_iff_iff]
  simp only [List.any_eq_true, List.mem_dedup]

/-- Lemma: `score_record` equals the claimed six-term sum with the source's token
class (lowercase alphanumerics plus hyphen). -/
lemma score_record_as_sum (rec : Record) (query : String) :
    score_record rec query = specScoreWith tokensHarvester rec query := by
  simp only [score_record, specScoreWith, specScoreRest, distinctTokenHits,
    tokenLoop_count]
  rw [any_dedup]
  cases rec.year with
  | none =>
    dsimp only
    ring
  | some y =>
    dsimp only
    by_cases hy : y ≠ 0
    · rw [if_pos hy, if_pos hy]
      ring
    · rw [if_neg hy, if_neg hy]
      ring

/-- Claim C5 (corrected, amended): `score_record` returns exactly the
claimed sum — `+1.0` per distinct query token present in title+abstract,
`+2.5` for a materials-keyword match on title/abstract/venue, `−3.0` for an
exclusion match, `+1.0` for a whitespace-split query word in the title,
`+1.0` for a present `pdf_url`, and `(year−2000)/12` clamped to `[0, 2]` —
where the query tokens are the maximal runs of lowercase alphanumerics
*or hyphens* of length at least 3 (the source regex `[a-z0-9\-]{3,}`), not
of alphanumerics only as the claim words it. -/
theorem C5_score_is_claimed_sum (rec : Record) (query : String) :
    score_record rec query = specScoreHyphen rec query :=
  score_record_as_sum rec query

/-- The record refuting C5 as stated: its title is the hyphenated query
itself. -/
def c5Rec : Record := { title := "abc-def" }

/-- Claim C5 counterexample: on the query `abc-def` the code tokenizes to
the single token `abc-def` (one hit), while the claim's alphanumeric
tokenization yields `abc` and `def` (two hits), so `score_record` differs
from the claimed sum. -/
theorem C5_counterexample :
    score_record c5Rec "abc-def" ≠ specScoreAlnum c5Rec "abc-def" := by
  rw [score_record_as_sum]
  show specScoreWith tokensHarvester c5Rec "abc-def" ≠
    specScoreWith tokensAlnum c5Rec "abc-def"
  unfold specScoreWith
  intro h
  have h2 := add_right_cancel h
  have h3 : distinctTokenHits tokensHarvester c5Rec "abc-def" =
      distinctTokenHits tokensAlnum c5Rec "abc-def" := Nat.cast_injective h2
  have h4 : distinctTokenHits tokensHarvester c5Rec "abc-def" = 1 := by decide
  have h5 : distinctTokenHits tokensAlnum c5Rec "abc-def" = 2 := by decide
  omega

/-! ### C4: fuzzy-merge idempotence -/

lemma fuzzyMergeGo_cons (sc : String → String → ℚ) (sp : List String → List Nat)
    (r : Record) (rs : List Record) (keys : List String) :
    fuzzyMergeGo sc sp (r :: rs) keys =
      if keys = [] then r :: fuzzyMergeGo sc sp rs [titleKey r]
      else
        if fuzzyCands sp keys (titleKey r) ≠ [] ∧
            95 ≤ bestScore sc (titleKey r) (fuzzyCands sp keys (titleKey r)) then
          fuzzyMergeGo sc sp rs keys
        else r :: fuzzyMergeGo sc sp rs (keys ++ [titleKey r]) := rfl

lemma fuzzyMergeGo_replay (sc : String → String → ℚ) (sp : List String → List Nat) :
    ∀ (l : List Record) (keys : List String),
      fuzzyMergeGo sc sp (fuzzyMergeGo sc sp l keys) keys = fuzzyMergeGo sc sp l keys := by
  intro l
  induction l with
  | nil => intro keys; rfl
  | cons r rs ih =>
    intro keys
    rw [fuzzyMergeGo_cons]
    by_cases hk : keys = []
    · subst hk
      rw [if_pos rfl, fuzzyMergeGo_cons, if_pos rfl, ih]
    · rw [if_neg hk]
      by_cases hc : fuzzyCands sp keys (titleKey r) ≠ [] ∧
          95 ≤ bestScore sc (titleKey r) (fuzzyCands sp keys (titleKey r))
      · rw [if_pos hc]
        exact ih keys
      · rw [if_neg hc, fuzzyMergeGo_cons, if_neg hk, if_neg hc, ih]

/-- Claim C4 (corrected, amended): the fuzzy-merge stage applied to its own
output yields the same list — and hence the same set — whenever the random
samples drawn at corresponding decision states coincide, which is expressed
by the sample being an arbitrary function of the current accepted-key list
(the population `random.sample` draws from).  With independently drawn
fresh samples the stage is not idempotent once more than 30 keys exist
(see the counterexample). -/
theorem C4_fuzzy_merge_idempotent (sc : String → String → ℚ)
    (sp : List String → List Nat) (l : List Record) :
    fuzzyMerge sc sp (fuzzyMerge sc sp l) = fuzzyMerge sc sp l :=
  fuzzyMergeGo_replay sc sp l []

/-- Claim C4 counterexample: `c4Sample1` and `c4Sample2` are two runs'
random draws, each a legal outcome of
`random.sample(range(len(keys)), min(30, len(keys)))` at every call — they
agree except at the 33rd record, where 32 keys exist and the 30-element
samples differ in whether they include index 0.  The first pass keeps the
`zyy...y` record (its sample misses the 97.5%-similar `yy...y` key at
index 0); re-running the merge on that output with the second draw discards
it, so fuzzy merge applied twice does not yield the same set. -/
theorem C4_counterexample :
    ((fuzzyMerge ratioScore c4Sample1 c4Recs).map (fun r => r.title)).contains zTitle
      = true ∧
    ((fuzzyMerge ratioScore c4Sample2
        (fuzzyMerge ratioScore c4Sample1 c4Recs)).map (fun r => r.title)).contains zTitle
      = false := by
  decide

